import Mathlib

/-!
Verification of `netlify/functions/check-password.js`.

The file embeds the serverless function shallowly in Lean:

* `sha1Hex`, `hibpRequest`, `checkHIBP` model the k-anonymity breach lookup.
  The SHA-1 digest itself is Node's `crypto` library, external to the
  repository, so it appears as an abstract hash parameter `h`; the code's
  own contribution (`.digest('hex').toUpperCase()`, the prefix/suffix split,
  the request URL, the response matching) is embedded faithfully.
* `generateStrongPassword` models the password synthesizer, with the stream
  of `Math.floor(Math.random() * k)` draws abstracted as a function
  `f : Nat → Nat` reduced modulo the requested bound (every realizable draw
  sequence corresponds to some `f`, and every `f` yields in-range draws).
* `handler` models the exported Netlify handler, with the platform pieces
  (`fetch`, `JSON.parse`, `zxcvbn`) as an explicit environment; promise
  rejections are `Except.error` values carrying the exception message.

String operations from JS (`slice`, `split`, `toUpperCase`, `parseInt`)
are embedded as structurally recursive functions over `List Char` so that
concrete runs reduce inside the kernel.
-/

/-- Character-wise uppercasing, the embedding of JS `String.toUpperCase`
(ASCII-faithful, which covers hex digests and the HIBP response format). -/
def upStr (s : String) : String :=
  String.mk (s.toList.map Char.toUpper)

/-- Embedding of JS `s.slice(0, n)` for ASCII strings. -/
def strTake (s : String) (n : Nat) : String :=
  String.mk (s.toList.take n)

/-- Embedding of JS `s.slice(n)` for ASCII strings. -/
def strDrop (s : String) (n : Nat) : String :=
  String.mk (s.toList.drop n)

/-- Split a character list at every occurrence of `sep`, the embedding of
JS `String.split` with a one-character separator (both separators used by
the code, `'\n'` and `':'`, are single characters). `[]` maps to `[[]]`,
matching JS where `"".split(c)` is `[""]`. -/
def splitChar (sep : Char) : List Char → List (List Char)
  | [] => [[]]
  | c :: cs =>
    let r := splitChar sep cs
    if c = sep then [] :: r
    else
      match r with
      | [] => [[c]]
      | h :: t => (c :: h) :: t

/-- Embedding of JS `s.split(sep)` for a one-character separator. -/
def jsSplit (s : String) (sep : Char) : List String :=
  (splitChar sep s.toList).map String.mk

/-- Leading decimal-digit run of a character list as a number, `none` when
there is no leading digit (JS `parseInt` returning `NaN`). -/
def jsLeadingNat (l : List Char) : Option Nat :=
  match l.takeWhile Char.isDigit with
  | [] => none
  | ds => some (ds.foldl (fun a c => a * 10 + (c.toNat - 48)) 0)

/-- Embedding of JS `parseInt(s, 10) || 0`: skip leading whitespace, an
optional sign, then the longest digit run; `NaN` (no digits) collapses to
`0`, exactly what `|| 0` does (a parsed `0` is also `0` after `|| 0`). -/
def jsParseIntOr0 (s : String) : Int :=
  let t := s.toList.dropWhile (fun c => c = ' ' || c = '\t' || c = '\n' || c = '\r')
  match t with
  | '-' :: r =>
    match jsLeadingNat r with
    | none => 0
    | some n => -(n : Int)
  | '+' :: r =>
    match jsLeadingNat r with
    | none => 0
    | some n => (n : Int)
  | r =>
    match jsLeadingNat r with
    | none => 0
    | some n => (n : Int)

/-- Embedding of `sha1Hex` from the source: `crypto.createHash('sha1')…
.digest('hex')` is the abstract external hash `h`; the code's own
`.toUpperCase()` is `upStr`. -/
def sha1Hex (h : String → String) (input : String) : String :=
  upStr (h input)

/-- The outbound HTTP request `checkHIBP` issues: URL plus the
`User-Agent` header, exactly the two data the `fetch` call carries. -/
structure HibpRequest where
  url : String
  userAgent : String
  deriving DecidableEq

/-- The request built at line 75 of the source: the URL carries only
`sha1.slice(0, 5)`, the 5-character digest prefix. -/
def hibpRequest (h : String → String) (password : String) : HibpRequest :=
  { url := "https://api.pwnedpasswords.com/range/" ++ strTake (sha1Hex h password) 5
    userAgent := "Graduation-Project-Password-Checker" }

/-- A resolved `fetch` response: `ok` status flag and the body text. -/
structure Response where
  ok : Bool
  text : String
  deriving DecidableEq

/-- Breach lookup result, the `{ pwned, count }` object of `checkHIBP`. -/
structure BreachResult where
  pwned : Bool
  count : Int
  deriving DecidableEq

/-- Steps 4–5 of `checkHIBP` (lines 87–100): split the body into lines,
find the first line whose field before the first `':'`, uppercased, equals
`sfx`; on a hit parse the count field with `parseInt(..., 10) || 0`
(a missing count field is JS `parseInt(undefined)`, i.e. `NaN`, i.e. `0`). -/
def lookupSuffix (sfx : String) (text : String) : BreachResult :=
  match (jsSplit text '\n').find? (fun line => upStr ((jsSplit line ':').headD "") == sfx) with
  | none => ⟨false, 0⟩
  | some hit =>
    ⟨true,
      match (jsSplit hit ':')[1]? with
      | none => 0
      | some c => jsParseIntOr0 c⟩

/-- Embedding of `checkHIBP` (lines 65–101). `fetch` is the environment's
network call: `Except.error m` is a promise rejection carrying the message
`m` (it propagates, as an uncaught `await` throw does), `Except.ok` a
resolved response (a resolved `fetch` value is never falsy, so the `!resp`
half of the source's guard is vacuous and only `!resp.ok` remains). -/
def checkHIBP (fetch : HibpRequest → Except String Response) (h : String → String)
    (password : String) : Except String BreachResult :=
  let sha1 := sha1Hex h password
  let sfx := strDrop sha1 5
  match fetch (hibpRequest h password) with
  | .error m => .error m
  | .ok resp =>
    if !resp.ok then .ok ⟨false, 0⟩
    else .ok (lookupSuffix sfx resp.text)

/-- The four character classes of `generateStrongPassword` (lines 23–26). -/
def upperChars : List Char := "ABCDEFGHIJKLMNOPQRSTUVWXYZ".toList

/-- Lowercase class (line 24 of the source). -/
def lowerChars : List Char := "abcdefghijklmnopqrstuvwxyz".toList

/-- Digit class (line 25 of the source). -/
def digitChars : List Char := "0123456789".toList

/-- Symbol class (line 26 of the source). -/
def symbolChars : List Char := "!@#$%^&*()-_=+[]\x7b\x7d<>?".toList

/-- The union `all = upper + lower + digits + symbols` (line 35). -/
def allChars : List Char := upperChars ++ lowerChars ++ digitChars ++ symbolChars

/-- Embedding of `cs[Math.floor(Math.random() * cs.length)]`: the raw draw
`n` is reduced modulo the class size, so it indexes in range exactly as the
floored scaled random value does (the default is unreachable for the
non-empty classes). -/
def charClassPick (cs : List Char) (n : Nat) : Char :=
  cs.getD (n % cs.length) 'A'

/-- The fill loop (lines 36–38): append `count` draws from `allChars`,
consuming one random draw per character; returns the next unused draw
index. -/
def fillChars (f : Nat → Nat) (i : Nat) : Nat → List Char × Nat
  | 0 => ([], i)
  | n + 1 =>
    let p := fillChars f (i + 1) n
    (charClassPick allChars (f i) :: p.1, p.2)

/-- The swap `[arr[i], arr[j]] = [arr[j], arr[i]]` (line 45); positions are
always in range at the call sites, and an out-of-range index leaves the
list unchanged. -/
def listSwap (l : List Char) (i j : Nat) : List Char :=
  match l[i]?, l[j]? with
  | some a, some b => (l.set i b).set j a
  | _, _ => l

/-- The Fisher–Yates loop of lines 43–46: positions run from
`l.length - 1` down to `1` (the fuel argument equals the current
position), and `j = Math.floor(Math.random() * (i + 1))` is the draw at
the running index reduced modulo `i + 1`. -/
def fyGo (f : Nat → Nat) (idx : Nat) (l : List Char) : Nat → List Char × Nat
  | 0 => (l, idx)
  | i + 1 => fyGo f (idx + 1) (listSwap l (i + 1) (f idx % (i + 2))) i

/-- Embedding of `generateStrongPassword` (lines 22–48). The random source
is `f`, starting at draw index `i0`; the function returns the password and
the next unused draw index, so consecutive calls in the handler's loop
consume consecutive stretches of the stream. The requested `length` is an
arbitrary integer, as in JS: the fill loop `for (i = 4; i < length; i++)`
runs `(length - 4).toNat` times, so the output is never shorter than the
four seeded characters. -/
def generateStrongPassword (f : Nat → Nat) (i0 : Nat) (len : Int) : String × Nat :=
  let c1 := charClassPick upperChars (f i0)
  let c2 := charClassPick lowerChars (f (i0 + 1))
  let c3 := charClassPick digitChars (f (i0 + 2))
  let c4 := charClassPick symbolChars (f (i0 + 3))
  let p := fillChars f (i0 + 4) (len - 4).toNat
  let pw := [c1, c2, c3, c4] ++ p.1
  let q := fyGo f p.2 pw (pw.length - 1)
  (String.mk q.1, q.2)

/-- A JSON value as far as the handler inspects one: a string, a number,
or anything else carrying only its truthiness. -/
inductive JVal where
  | str (s : String)
  | num (n : Int)
  | other (truthy : Bool)
  deriving DecidableEq

/-- The destructured request body `const { password, length } = body`. -/
structure Parsed where
  password : Option JVal
  length : Option JVal
  deriving DecidableEq

/-- The Netlify event: HTTP method and raw body. -/
structure Event where
  httpMethod : String
  body : Option String
  deriving DecidableEq

/-- The JSON body the handler serializes: either the success object of
lines 157–164 or an error object `{ error, details? }`. -/
inductive RespBody where
  | ok (pwned : Bool) (count : Int) (score : Nat) (feedback : String)
      (suggested : Option String) (suggestedScore : Nat)
  | err (code : String) (details : Option String)
  deriving DecidableEq

/-- An HTTP response as the handler returns it. -/
structure HttpResponse where
  status : Nat
  headers : List (String × String)
  body : RespBody
  deriving DecidableEq

/-- The platform environment of one invocation: the abstract SHA-1 hex
digest, the outcome of the `k`-th `fetch` call (call 0 is the original
password's lookup, calls 1… the candidates'), the random draw stream, the
zxcvbn score and feedback, and `JSON.parse` (whose `Except.error` carries
the thrown exception's `message`). -/
structure Env where
  hash : String → String
  fetchAt : Nat → HibpRequest → Except String Response
  rand : Nat → Nat
  zscore : String → Nat
  zfeedback : String → String
  parse : String → Except String Parsed

/-- Password validation (line 118): `!password || typeof password !==
'string'` admits exactly a string field that is non-empty. -/
def validatePassword : Option JVal → Option String
  | some (.str s) => if s = "" then none else some s
  | _ => none

/-- Length validation (line 123): `[12, 16, 20].includes(length)` keeps a
numeric 12/16/20 and anything else defaults to 16. -/
def validLen : Option JVal → Int
  | some (.num n) => if n = 12 ∨ n = 16 ∨ n = 20 then n else 16
  | _ => 16

/-- The per-candidate breach check of line 142, including its
`.catch(() => ({ pwned: false }))`: a rejected lookup reads as not
pwned. -/
def attemptPwned (env : Env) (fIdx : Nat) (c : String) : Bool :=
  match checkHIBP (env.fetchAt fIdx) env.hash c with
  | .error _ => false
  | .ok r => r.pwned

/-- The replacement loop of lines 140–147, unrolled into the list of
attempts it makes: each entry is the generated candidate and whether its
breach check reported it pwned. The loop stops at the first non-pwned
candidate or after the fuel (5 in the handler) is exhausted. -/
def runAttempts (env : Env) (fIdx rIdx : Nat) (pwLen : Int) : Nat → List (String × Bool)
  | 0 => []
  | n + 1 =>
    if attemptPwned env fIdx (generateStrongPassword env.rand rIdx pwLen).1 then
      ((generateStrongPassword env.rand rIdx pwLen).1, true)
        :: runAttempts env (fIdx + 1) (generateStrongPassword env.rand rIdx pwLen).2 pwLen n
    else [((generateStrongPassword env.rand rIdx pwLen).1, false)]

/-- The `suggested` / `suggestedScore` pair the loop leaves behind: the
last attempt's candidate, scored by zxcvbn only when it passed the breach
check (`suggestedScore` keeps its initialization `0` otherwise). -/
def synthRes (env : Env) (pwLen : Int) : Option String × Nat :=
  match (runAttempts env 1 0 pwLen 5).getLast? with
  | none => (none, 0)
  | some (c, pwned) => (some c, if pwned then 0 else env.zscore c)

/-- The argument of `JSON.parse` (line 114): `event.body || '{}'`, where
both a missing and an empty body fall back to the literal `"\x7b\x7d"`. -/
def eventRaw (event : Event) : String :=
  match event.body with
  | none => "\x7b\x7d"
  | some s => if s = "" then "\x7b\x7d" else s

/-- Embedding of `exports.handler` (lines 106–171). Every `await` throw
inside the `try` block — a `JSON.parse` exception or a rejected original
lookup — lands in the `catch`, which answers 500 with
`{ error: 'internal_error', details: e.message }`. -/
def handler (env : Env) (event : Event) : HttpResponse :=
  if event.httpMethod ≠ "POST" then ⟨405, [], .err "method_not_allowed" none⟩
  else
    match env.parse (eventRaw event) with
    | .error m => ⟨500, [], .err "internal_error" (some m)⟩
    | .ok parsed =>
      match validatePassword parsed.password with
      | none => ⟨400, [], .err "password_required" none⟩
      | some password =>
        let pwLength := validLen parsed.length
        match checkHIBP (env.fetchAt 0) env.hash password with
        | .error m => ⟨500, [], .err "internal_error" (some m)⟩
        | .ok hibp =>
          let strengthScore := env.zscore password
          let pair :=
            if strengthScore < 4 ∨ hibp.pwned = true then synthRes env pwLength
            else (none, 0)
          ⟨200, [("Content-Type", "application/json"), ("Cache-Control", "no-store")],
            .ok hibp.pwned hibp.count strengthScore (env.zfeedback password) pair.1 pair.2⟩

/-- Boolean containment of a character of one of the four classes in a
string, used to state the composition rule. -/
def containsFrom (s : String) (cs : List Char) : Bool :=
  s.toList.any fun c => cs.contains c

theorem containsFrom_of_mem {s : String} {cs : List Char} {c : Char}
    (h1 : c ∈ s.toList) (h2 : c ∈ cs) : containsFrom s cs = true := by
  simp only [containsFrom, List.any_eq_true]
  exact ⟨c, h1, List.elem_eq_true_of_mem h2⟩

theorem charClassPick_mem (cs : List Char) (n : Nat) (h : cs ≠ []) :
    charClassPick cs n ∈ cs := by
  unfold charClassPick
  have hl : 0 < cs.length := List.length_pos.2 h
  have hm : n % cs.length < cs.length := Nat.mod_lt _ hl
  rw [List.getD_eq_getElem?_getD, List.getElem?_eq_getElem hm]
  exact List.getElem_mem hm

theorem count_set_add (x b ai : Char) :
    ∀ (l : List Char) (i : Nat), l[i]? = some ai →
      (l.set i b).count x + (if ai = x then 1 else 0)
        = l.count x + (if b = x then 1 else 0) := by
  intro l
  induction l with
  | nil => intro i h; simp at h
  | cons a t ih =>
    intro i h
    cases i with
    | zero =>
      simp only [List.getElem?_cons_zero, Option.some_inj] at h
      subst h
      simp only [List.set_cons_zero, List.count_cons, beq_iff_eq]
      split_ifs <;> omega
    | succ n =>
      simp only [List.getElem?_cons_succ] at h
      have h2 := ih n h
      simp only [List.set_cons_succ, List.count_cons, beq_iff_eq]
      split_ifs at h2 ⊢ <;> omega

/-- The in-place swap of line 45 permutes the list. -/
theorem listSwap_perm (l : List Char) (i j : Nat) : (listSwap l i j).Perm l := by
  unfold listSwap
  split
  next a b hi hj =>
    rw [List.perm_iff_count]
    intro x
    have hbj : (l.set i b)[j]? = some b := by
      by_cases hij : i = j
      · subst hij
        exact List.getElem?_set_self (List.getElem?_eq_some_iff.1 hj).1
      · rw [List.getElem?_set_ne hij, hj]
    have e1 := count_set_add x a b (l.set i b) j hbj
    have e2 := count_set_add x b a l i hi
    split_ifs at e1 e2 <;> omega
  next => exact List.Perm.refl _

/-- The Fisher–Yates loop of lines 43–46 permutes its input. -/
theorem fyGo_perm (f : Nat → Nat) :
    ∀ (n idx : Nat) (l : List Char), ((fyGo f idx l n).1).Perm l := by
  intro n
  induction n with
  | zero => intro idx l; exact List.Perm.refl _
  | succ i ih =>
    intro idx l
    simp only [fyGo]
    exact (ih (idx + 1) (listSwap l (i + 1) (f idx % (i + 2)))).trans
      (listSwap_perm l (i + 1) (f idx % (i + 2)))

theorem fillChars_fst_length (f : Nat → Nat) :
    ∀ (n i : Nat), ((fillChars f i n).1).length = n := by
  intro n
  induction n with
  | zero => intro i; rfl
  | succ m ih => intro i; simp [fillChars, ih]

/-- The generated password is a permutation of the pre-shuffle list: the
four seeded class characters followed by the fill characters. -/
theorem gen_perm (f : Nat → Nat) (i0 : Nat) (len : Int) :
    ((generateStrongPassword f i0 len).1.toList).Perm
      (charClassPick upperChars (f i0) :: charClassPick lowerChars (f (i0 + 1)) ::
       charClassPick digitChars (f (i0 + 2)) :: charClassPick symbolChars (f (i0 + 3)) ::
       (fillChars f (i0 + 4) (len - 4).toNat).1) := by
  unfold generateStrongPassword
  exact fyGo_perm f _ _ _

/-- The generated password's length is `max(length, 4)`: four seeds plus
`length - 4` fill characters, never fewer than the seeds. -/
theorem gen_length (f : Nat → Nat) (i0 : Nat) (len : Int) :
    ((generateStrongPassword f i0 len).1).length = (max len 4).toNat := by
  have hl := (gen_perm f i0 len).length_eq
  simp only [List.length_cons, fillChars_fst_length] at hl
  have hs : ((generateStrongPassword f i0 len).1).length
      = ((generateStrongPassword f i0 len).1.toList).length := rfl
  rw [hs, hl]
  omega

theorem gen_contains (f : Nat → Nat) (i0 : Nat) (len : Int) :
    containsFrom (generateStrongPassword f i0 len).1 upperChars = true
    ∧ containsFrom (generateStrongPassword f i0 len).1 lowerChars = true
    ∧ containsFrom (generateStrongPassword f i0 len).1 digitChars = true
    ∧ containsFrom (generateStrongPassword f i0 len).1 symbolChars = true := by
  have hp := gen_perm f i0 len
  have m1 : charClassPick upperChars (f i0) ∈ (generateStrongPassword f i0 len).1.toList :=
    hp.mem_iff.2 (List.mem_cons_self _ _)
  have m2 : charClassPick lowerChars (f (i0 + 1)) ∈ (generateStrongPassword f i0 len).1.toList :=
    hp.mem_iff.2 (List.mem_cons_of_mem _ (List.mem_cons_self _ _))
  have m3 : charClassPick digitChars (f (i0 + 2)) ∈ (generateStrongPassword f i0 len).1.toList :=
    hp.mem_iff.2 (List.mem_cons_of_mem _ (List.mem_cons_of_mem _ (List.mem_cons_self _ _)))
  have m4 : charClassPick symbolChars (f (i0 + 3)) ∈ (generateStrongPassword f i0 len).1.toList :=
    hp.mem_iff.2 (List.mem_cons_of_mem _ (List.mem_cons_of_mem _
      (List.mem_cons_of_mem _ (List.mem_cons_self _ _))))
  exact ⟨containsFrom_of_mem m1 (charClassPick_mem _ _ (by decide)),
         containsFrom_of_mem m2 (charClassPick_mem _ _ (by decide)),
         containsFrom_of_mem m3 (charClassPick_mem _ _ (by decide)),
         containsFrom_of_mem m4 (charClassPick_mem _ _ (by decide))⟩



/-- Projection of the `suggested_password` field out of a response body
(`none` on error bodies, which carry no such field). -/
def respSuggested : RespBody → Option String
  | .ok _ _ _ _ sg _ => sg
  | .err _ _ => none

/-- Projection of the `suggested_password_score` field out of a response
body (`0` on error bodies). -/
def respSuggestedScore : RespBody → Nat
  | .ok _ _ _ _ _ sgs => sgs
  | .err _ _ => 0

theorem runAttempts_length_le (env : Env) :
    ∀ (n fIdx rIdx : Nat) (pwLen : Int),
      (runAttempts env fIdx rIdx pwLen n).length ≤ n := by
  intro n
  induction n with
  | zero => intro fIdx rIdx pwLen; simp [runAttempts]
  | succ m ih =>
    intro fIdx rIdx pwLen
    simp only [runAttempts]
    split
    · simpa using ih _ _ _
    · simp

theorem runAttempts_ne_nil (env : Env) (fIdx rIdx : Nat) (pwLen : Int) :
    ∀ n, n ≠ 0 → runAttempts env fIdx rIdx pwLen n ≠ [] := by
  intro n hn
  cases n with
  | zero => exact absurd rfl hn
  | succ m =>
    simp only [runAttempts]
    split <;> simp

theorem mem_runAttempts (env : Env) :
    ∀ (n fIdx rIdx : Nat) (pwLen : Int) (a : String × Bool),
      a ∈ runAttempts env fIdx rIdx pwLen n →
      ∃ r, a.1 = (generateStrongPassword env.rand r pwLen).1 := by
  intro n
  induction n with
  | zero => intro _ _ _ a h; simp [runAttempts] at h
  | succ m ih =>
    intro fIdx rIdx pwLen a h
    simp only [runAttempts] at h
    split at h
    · rcases List.mem_cons.1 h with h1 | h1
      · exact ⟨rIdx, by rw [h1]⟩
      · exact ih _ _ _ _ h1
    · rw [List.mem_singleton] at h
      exact ⟨rIdx, by rw [h]⟩

theorem synthRes_fst_isSome (env : Env) (pwLen : Int) :
    (synthRes env pwLen).1.isSome = true := by
  unfold synthRes
  have h : (runAttempts env 1 0 pwLen 5).getLast?.isSome :=
    List.getLast?_isSome.2 (runAttempts_ne_nil env 1 0 pwLen 5 (by decide))
  rcases hl : (runAttempts env 1 0 pwLen 5).getLast? with _ | ⟨c, b⟩
  · rw [hl] at h; simp at h
  · simp [hl]

/-- C1: the outbound breach-lookup request carries exactly the range-query
URL built from the first five characters of the uppercase digest plus the
fixed client header, and is therefore a function of that 5-character
prefix alone: any two passwords whose digests agree on the first five
characters produce identical outbound requests. -/
theorem hibp_request_prefix_only :
    (∀ (h : String → String) (p : String),
        hibpRequest h p
          = ⟨"https://api.pwnedpasswords.com/range/" ++ strTake (sha1Hex h p) 5,
             "Graduation-Project-Password-Checker"⟩)
    ∧ ∀ (h : String → String) (p₁ p₂ : String),
        strTake (sha1Hex h p₁) 5 = strTake (sha1Hex h p₂) 5 →
        hibpRequest h p₁ = hibpRequest h p₂ := by
  constructor
  · intro h p; rfl
  · intro h p₁ p₂ hpre
    simp only [hibpRequest, hpre]

/-- Witness for `hibp_request_prefix_only`: two distinct passwords whose
(distinct) digests share the 5-character prefix get the same request. -/
theorem hibp_request_prefix_only_w :
    hibpRequest (fun s => "aaaaa" ++ s) "xyz" = hibpRequest (fun s => "aaaaa" ++ s) "xqq" :=
  hibp_request_prefix_only.2 (fun s => "aaaaa" ++ s) "xyz" "xqq" (by decide)

/-- C5 counterexample: at requested length `0 < 4` the synthesizer does
not fail with any error — it is a total function and returns the ordinary
4-character password below (the source has no error path at all). -/
theorem gen_no_invalid_length_error :
    ((generateStrongPassword (fun _ => 0) 0 0).1).length = 4
    ∧ (generateStrongPassword (fun _ => 0) 0 0).1 = "a0!A" := by
  decide

/-- C5 amended: for a requested length below the number of mandatory
classes the synthesizer still succeeds, returning a 4-character password
with one character of each class (rather than failing with
`InvalidLength`). -/
theorem gen_short_length_clamped (f : Nat → Nat) (i0 : Nat) (len : Int)
    (h : len < 4) :
    ((generateStrongPassword f i0 len).1).length = 4
    ∧ containsFrom (generateStrongPassword f i0 len).1 upperChars = true
    ∧ containsFrom (generateStrongPassword f i0 len).1 lowerChars = true
    ∧ containsFrom (generateStrongPassword f i0 len).1 digitChars = true
    ∧ containsFrom (generateStrongPassword f i0 len).1 symbolChars = true := by
  have hl := gen_length f i0 len
  have h4 : (max len 4).toNat = 4 := by omega
  rw [h4] at hl
  exact ⟨hl, gen_contains f i0 len⟩

/-- Witness for `gen_short_length_clamped` at length `-3`. -/
theorem gen_short_length_clamped_w :
    ((generateStrongPassword (fun _ => 1) 0 (-3)).1).length = 4
    ∧ containsFrom (generateStrongPassword (fun _ => 1) 0 (-3)).1 upperChars = true
    ∧ containsFrom (generateStrongPassword (fun _ => 1) 0 (-3)).1 lowerChars = true
    ∧ containsFrom (generateStrongPassword (fun _ => 1) 0 (-3)).1 digitChars = true
    ∧ containsFrom (generateStrongPassword (fun _ => 1) 0 (-3)).1 symbolChars = true :=
  gen_short_length_clamped (fun _ => 1) 0 (-3) (by decide)

/-- C7: for every requested length of at least 4 the generated password
has exactly the requested length and contains at least one character of
each of the four classes; and the shuffle step only permutes — its output
is a rearrangement of its input with nothing added or removed. -/
theorem gen_composition :
    (∀ (f : Nat → Nat) (idx : Nat) (l : List Char) (n : Nat),
        ((fyGo f idx l n).1).Perm l)
    ∧ ∀ (f : Nat → Nat) (i0 : Nat) (len : Int), 4 ≤ len →
        ((generateStrongPassword f i0 len).1).length = len.toNat
        ∧ containsFrom (generateStrongPassword f i0 len).1 upperChars = true
        ∧ containsFrom (generateStrongPassword f i0 len).1 lowerChars = true
        ∧ containsFrom (generateStrongPassword f i0 len).1 digitChars = true
        ∧ containsFrom (generateStrongPassword f i0 len).1 symbolChars = true := by
  constructor
  · intro f idx l n; exact fyGo_perm f n idx l
  · intro f i0 len h
    have hl := gen_length f i0 len
    have he : (max len 4).toNat = len.toNat := by omega
    rw [he] at hl
    exact ⟨hl, gen_contains f i0 len⟩

/-- Witness for `gen_composition` at length 16. -/
theorem gen_composition_w :
    ((generateStrongPassword (fun _ => 0) 0 16).1).length = (16 : Int).toNat
    ∧ containsFrom (generateStrongPassword (fun _ => 0) 0 16).1 upperChars = true
    ∧ containsFrom (generateStrongPassword (fun _ => 0) 0 16).1 lowerChars = true
    ∧ containsFrom (generateStrongPassword (fun _ => 0) 0 16).1 digitChars = true
    ∧ containsFrom (generateStrongPassword (fun _ => 0) 0 16).1 symbolChars = true :=
  gen_composition.2 (fun _ => 0) 0 16 (by decide)

/-- C10: the synthesizer is total — for every integer length, including 0
and negative values, it returns (with no error) a password of length
`max(length, 4)` containing at least one character of each of the four
classes; at lengths below 4 this means exactly the four seeded
characters. -/
theorem gen_total_min_four (f : Nat → Nat) (i0 : Nat) (len : Int) :
    ((generateStrongPassword f i0 len).1).length = (max len 4).toNat
    ∧ containsFrom (generateStrongPassword f i0 len).1 upperChars = true
    ∧ containsFrom (generateStrongPassword f i0 len).1 lowerChars = true
    ∧ containsFrom (generateStrongPassword f i0 len).1 digitChars = true
    ∧ containsFrom (generateStrongPassword f i0 len).1 symbolChars = true :=
  ⟨gen_length f i0 len, gen_contains f i0 len⟩

/-- C4: the lookup reports `pwned = true` exactly when some
newline-delimited line of the body has its field before the first `':'`
equal, compared case-insensitively, to the digest suffix; on no match the
result is `⟨false, 0⟩`, and on a match the count is the parsed second
field of the (first) matching line, defaulting to 0 when unparsable
(`jsParseIntOr0`) or missing. The hypothesis records that the suffix is
already uppercase, as every suffix `checkHIBP` passes in is (it comes from
the uppercased digest). -/
theorem lookup_exact_match (sfx text : String) (h : upStr sfx = sfx) :
    ((lookupSuffix sfx text).pwned = true ↔
        ∃ line ∈ jsSplit text '\n', upStr ((jsSplit line ':').headD "") = upStr sfx)
    ∧ ((lookupSuffix sfx text).pwned = false → lookupSuffix sfx text = ⟨false, 0⟩)
    ∧ (∀ hit, (jsSplit text '\n').find?
          (fun line => upStr ((jsSplit line ':').headD "") == sfx) = some hit →
        lookupSuffix sfx text
          = ⟨true, match (jsSplit hit ':')[1]? with
                   | none => 0
                   | some c => jsParseIntOr0 c⟩) := by
  refine ⟨?_, ?_, ?_⟩
  · rw [h]
    unfold lookupSuffix
    rcases hf : (jsSplit text '\n').find?
        (fun line => upStr ((jsSplit line ':').headD "") == sfx) with _ | hit
    · simp only [hf]
      constructor
      · intro hc; exact absurd hc (by simp)
      · rintro ⟨line, hmem, heq⟩
        have hnone := List.find?_eq_none.1 hf line hmem
        rw [heq] at hnone
        simp at hnone
    · simp only [hf]
      constructor
      · intro _
        have hp := List.find?_some hf
        exact ⟨hit, List.mem_of_find?_eq_some hf, beq_iff_eq.1 hp⟩
      · intro _; trivial
  · unfold lookupSuffix
    rcases hf : (jsSplit text '\n').find?
        (fun line => upStr ((jsSplit line ':').headD "") == sfx) with _ | hit
    · intro _; rfl
    · intro hc; exact absurd hc (by simp)
  · intro hit hfind
    unfold lookupSuffix
    rw [hfind]

/-- Witness for `lookup_exact_match` on a concrete uppercase suffix and a
two-line response body containing a case-insensitive match. -/
theorem lookup_exact_match_w :
    (((lookupSuffix "0ABC" "0abc:12\n0ABD:5").pwned = true ↔
        ∃ line ∈ jsSplit "0abc:12\n0ABD:5" '\n',
          upStr ((jsSplit line ':').headD "") = upStr "0ABC")
    ∧ (((lookupSuffix "0ABC" "0abc:12\n0ABD:5").pwned = false →
        lookupSuffix "0ABC" "0abc:12\n0ABD:5" = ⟨false, 0⟩))
    ∧ (∀ hit, (jsSplit "0abc:12\n0ABD:5" '\n').find?
          (fun line => upStr ((jsSplit line ':').headD "") == "0ABC") = some hit →
        lookupSuffix "0ABC" "0abc:12\n0ABD:5"
          = ⟨true, match (jsSplit hit ':')[1]? with
                   | none => 0
                   | some c => jsParseIntOr0 c⟩)) :=
  lookup_exact_match "0ABC" "0abc:12\n0ABD:5" (by decide)

/-- A well-formed POST event whose body mentions the password
`hunter2`. -/
def postEvent : Event := ⟨"POST", some "password=hunter2"⟩

/-- Environment in which every `fetch` call rejects (breach oracle
unreachable) while parsing and scoring behave normally. -/
def envFetchRej : Env :=
  { hash := fun _ => ""
    fetchAt := fun _ _ => .error "fetch failed"
    rand := fun _ => 0
    zscore := fun _ => 4
    zfeedback := fun _ => ""
    parse := fun _ => .ok ⟨some (.str "hunter2"), none⟩ }

/-- Environment in which every breach lookup reports pwned (the digest is
constantly empty and the response body's single empty line matches the
empty suffix), while zxcvbn scores every string 4. -/
def envAllPwned : Env :=
  { hash := fun _ => ""
    fetchAt := fun _ _ => .ok ⟨true, ""⟩
    rand := fun _ => 0
    zscore := fun _ => 4
    zfeedback := fun _ => ""
    parse := fun _ => .ok ⟨some (.str "hunter2"), none⟩ }

/-- Environment in which the breach oracle always answers with a
non-success status (fail-open path) and the client asks for length 12. -/
def envNotPwned : Env :=
  { hash := fun _ => ""
    fetchAt := fun _ _ => .ok ⟨false, ""⟩
    rand := fun _ => 0
    zscore := fun _ => 0
    zfeedback := fun _ => ""
    parse := fun _ => .ok ⟨some (.str "weak"), some (.num 12)⟩ }

/-- Environment whose `JSON.parse` fails with a message quoting the
offending input, as V8's `SyntaxError` does for invalid JSON bodies. -/
def envParseErr : Env :=
  { hash := fun _ => ""
    fetchAt := fun _ _ => .ok ⟨false, ""⟩
    rand := fun _ => 0
    zscore := fun _ => 0
    zfeedback := fun _ => ""
    parse := fun s => .error ("Unexpected token, " ++ s ++ " is not valid JSON") }


/-- C2 counterexample: with the breach oracle unreachable (the original
password's `fetch` call rejects), the overall operation does not complete
successfully with a fail-open "not exposed" result — the rejection
escapes `checkHIBP` (which guards only non-success responses) and the
handler's outer catch turns it into a hard 500 error response. -/
theorem handler_rejection_propagates :
    handler envFetchRej postEvent
      = ⟨500, [], .err "internal_error" (some "fetch failed")⟩ := by
  decide

/-- C2 amended: a resolved non-success response is recovered fail-open
(`⟨false, 0⟩`) for every lookup; a rejected lookup of a generated
candidate is recovered fail-open by the loop's `.catch`; but a rejected
lookup of the original password propagates to the outer catch and yields
a 500 `internal_error` response. -/
theorem hibp_failopen_amended :
    (∀ (fetch : HibpRequest → Except String Response) (h : String → String)
        (pw : String) (resp : Response),
        fetch (hibpRequest h pw) = .ok resp → resp.ok = false →
        checkHIBP fetch h pw = .ok ⟨false, 0⟩)
    ∧ (∀ (env : Env) (fIdx : Nat) (c m : String),
        checkHIBP (env.fetchAt fIdx) env.hash c = .error m →
        attemptPwned env fIdx c = false)
    ∧ (∀ (env : Env) (event : Event) (parsed : Parsed) (pw m : String),
        event.httpMethod = "POST" →
        env.parse (eventRaw event) = .ok parsed →
        validatePassword parsed.password = some pw →
        checkHIBP (env.fetchAt 0) env.hash pw = .error m →
        handler env event = ⟨500, [], .err "internal_error" (some m)⟩) := by
  refine ⟨?_, ?_, ?_⟩
  · intro fetch h pw resp hf hok
    simp [checkHIBP, hf, hok]
  · intro env fIdx c m hc
    unfold attemptPwned
    rw [hc]
  · intro env event parsed pw m h1 h2 h3 h4
    simp [handler, h1, h2, h3, h4]

/-- Witness for `hibp_failopen_amended`: a concrete non-success response
is reported as not exposed with count 0. -/
theorem hibp_failopen_amended_w :
    checkHIBP (fun _ => .ok ⟨false, "irrelevant"⟩) (fun _ => "") "pw" = .ok ⟨false, 0⟩ :=
  hibp_failopen_amended.1 (fun _ => .ok ⟨false, "irrelevant"⟩) (fun _ => "") "pw"
    ⟨false, "irrelevant"⟩ rfl rfl

/-- C3 counterexample: in a run where the original password is breached
and all five generated candidates are reported breached, the handler
returns the last candidate with `suggested_password_score = 0`, although
that candidate's strength score (the environment's zxcvbn) is 4 — the
score of the returned candidate is never computed on this path. -/
theorem handler_exhausted_score_zero :
    respSuggestedScore (handler envAllPwned postEvent).body = 0
    ∧ (respSuggested (handler envAllPwned postEvent).body).isSome = true
    ∧ envAllPwned.zscore ((respSuggested (handler envAllPwned postEvent).body).getD "") = 4 := by
  decide

/-- C3 amended: when every attempt of the replacement loop finds its
candidate exposed, the loop still returns the last generated candidate as
the suggestion, paired with the score 0 that `suggestedScore` was
initialized with (not the candidate's own strength score). -/
theorem synth_exhausted_returns_last (env : Env) (pwLen : Int)
    (h : ∀ a ∈ runAttempts env 1 0 pwLen 5, a.2 = true) :
    synthRes env pwLen = ((runAttempts env 1 0 pwLen 5).getLast?.map Prod.fst, 0) := by
  have hne := runAttempts_ne_nil env 1 0 pwLen 5 (by decide)
  rcases hl : (runAttempts env 1 0 pwLen 5).getLast? with _ | ⟨c, b⟩
  · have hs := List.getLast?_isSome.2 hne
    rw [hl] at hs
    simp at hs
  · have hb : b = true := h (c, b) (List.mem_of_getLast?_eq_some hl)
    subst hb
    unfold synthRes
    rw [hl]
    simp

/-- Witness for `synth_exhausted_returns_last` in the all-pwned
environment. -/
theorem synth_exhausted_returns_last_w :
    synthRes envAllPwned 16 = ((runAttempts envAllPwned 1 0 16 5).getLast?.map Prod.fst, 0) :=
  synth_exhausted_returns_last envAllPwned 16 (by decide)

theorem validLen_cases (lf : Option JVal) :
    validLen lf = 12 ∨ validLen lf = 16 ∨ validLen lf = 20 := by
  rcases lf with _ | v
  · right; left; rfl
  · rcases v with s | k | t
    · right; left; rfl
    · by_cases hk : k = 12 ∨ k = 16 ∨ k = 20
      · have he : validLen (some (.num k)) = k := by simp [validLen, hk]
        rcases hk with h | h | h
        · left; rw [he, h]
        · right; left; rw [he, h]
        · right; right; rw [he, h]
      · right; left; simp [validLen, hk]
    · right; left; rfl

/-- C6: in the handler's success response, `suggested_password` is `null`
exactly when the original password scores the maximum 4 and is not
exposed; in every other case the loop has run at least once and left a
non-null suggestion. The hypotheses pin the success path (POST, parsed
body, valid password, resolved original lookup) and the strength oracle's
0–4 range. -/
theorem suggested_null_iff (env : Env) (event : Event) (parsed : Parsed)
    (pw : String) (hibp : BreachResult)
    (hm : event.httpMethod = "POST")
    (hp : env.parse (eventRaw event) = .ok parsed)
    (hv : validatePassword parsed.password = some pw)
    (hh : checkHIBP (env.fetchAt 0) env.hash pw = .ok hibp)
    (hz : env.zscore pw ≤ 4) :
    (respSuggested (handler env event).body = none
      ↔ (env.zscore pw = 4 ∧ hibp.pwned = false)) := by
  have hstep : respSuggested (handler env event).body
      = (if env.zscore pw < 4 ∨ hibp.pwned = true
         then synthRes env (validLen parsed.length) else (none, 0)).1 := by
    simp [handler, hm, hp, hv, hh, respSuggested]
  rw [hstep]
  by_cases hc : env.zscore pw < 4 ∨ hibp.pwned = true
  · rw [if_pos hc]
    have hs := synthRes_fst_isSome env (validLen parsed.length)
    constructor
    · intro hnone
      rw [hnone] at hs
      simp at hs
    · rintro ⟨h4, hpf⟩
      rcases hc with hlt | htrue
      · omega
      · rw [htrue] at hpf
        exact absurd hpf (by decide)
  · rw [if_neg hc]
    push_neg at hc
    exact ⟨fun _ => ⟨by omega, by simpa using hc.2⟩, fun _ => rfl⟩

/-- Witness for `suggested_null_iff`: in the all-pwned environment the
suggestion is non-null and the right side is false. -/
theorem suggested_null_iff_w :
    (respSuggested (handler envAllPwned postEvent).body = none
      ↔ (envAllPwned.zscore "hunter2" = 4 ∧ (⟨true, 0⟩ : BreachResult).pwned = false)) :=
  suggested_null_iff envAllPwned postEvent ⟨some (.str "hunter2"), none⟩ "hunter2"
    ⟨true, 0⟩ rfl rfl rfl rfl (by decide)

/-- C8: the replacement loop makes at most its fuel's worth of attempts
(the handler instantiates the fuel at `maxAttempts = 5`, and the loop is a
structurally terminating function — no unbounded retrying); the validated
length is always one of 12, 16, 20; and every candidate the loop generates
has exactly that validated length. -/
theorem loop_bounded (env : Env) (fIdx rIdx : Nat) (lenField : Option JVal) (n : Nat) :
    (runAttempts env fIdx rIdx (validLen lenField) n).length ≤ n
    ∧ (validLen lenField = 12 ∨ validLen lenField = 16 ∨ validLen lenField = 20)
    ∧ ∀ a ∈ runAttempts env fIdx rIdx (validLen lenField) n,
        a.1.length = (validLen lenField).toNat := by
  refine ⟨runAttempts_length_le env n fIdx rIdx _, validLen_cases lenField, ?_⟩
  intro a ha
  obtain ⟨r, hr⟩ := mem_runAttempts env n fIdx rIdx _ a ha
  rw [hr, gen_length]
  rcases validLen_cases lenField with h | h | h <;> rw [h] <;> decide

/-- Witness for `loop_bounded` at requested length 12 in the non-pwned
environment, whose single attempt generates the candidate below. -/
theorem loop_bounded_w :
    (runAttempts envNotPwned 1 0 (validLen (some (.num 12))) 5).length ≤ 5
    ∧ (validLen (some (.num 12)) = 12 ∨ validLen (some (.num 12)) = 16
        ∨ validLen (some (.num 12)) = 20)
    ∧ ("a0!AAAAAAAAA" : String).length = (validLen (some (.num 12))).toNat :=
  ⟨(loop_bounded envNotPwned 1 0 (some (.num 12)) 5).1,
   (loop_bounded envNotPwned 1 0 (some (.num 12)) 5).2.1,
   (loop_bounded envNotPwned 1 0 (some (.num 12)) 5).2.2 ("a0!AAAAAAAAA", false) (by decide)⟩

/-- C9 amended: every exception raised inside the handler's `try` — a
`JSON.parse` failure or a rejected original-password lookup — is caught at
the outermost boundary and surfaced as a 500 response with the generic
code `internal_error`; but the response's `details` field carries the
exception's message verbatim, so nothing prevents it from containing the
submitted password or fragments of the request body. -/
theorem internal_errors_generic :
    (∀ (env : Env) (event : Event) (m : String),
        event.httpMethod = "POST" →
        env.parse (eventRaw event) = .error m →
        handler env event = ⟨500, [], .err "internal_error" (some m)⟩)
    ∧ (∀ (env : Env) (event : Event) (parsed : Parsed) (pw m : String),
        event.httpMethod = "POST" →
        env.parse (eventRaw event) = .ok parsed →
        validatePassword parsed.password = some pw →
        checkHIBP (env.fetchAt 0) env.hash pw = .error m →
        handler env event = ⟨500, [], .err "internal_error" (some m)⟩) := by
  constructor
  · intro env event m h1 h2
    simp [handler, h1, h2]
  · intro env event parsed pw m h1 h2 h3 h4
    simp [handler, h1, h2, h3, h4]

/-- Witness for `internal_errors_generic`: a concrete parse failure is
surfaced as the generic 500 with the exception message as detail. -/
theorem internal_errors_generic_w :
    handler envParseErr postEvent
      = ⟨500, [], .err "internal_error"
           (some "Unexpected token, password=hunter2 is not valid JSON")⟩ :=
  internal_errors_generic.1 envParseErr postEvent
    "Unexpected token, password=hunter2 is not valid JSON" rfl rfl

/-- C9 counterexample: with a `JSON.parse` whose error message quotes the
invalid input (as V8's does), the error detail the handler returns
contains the request body — and with it the submitted password
`hunter2` — verbatim. -/
theorem handler_error_detail_leaks :
    handler envParseErr postEvent
      = ⟨500, [], .err "internal_error"
           (some "Unexpected token, password=hunter2 is not valid JSON")⟩
    ∧ (∃ s t : String,
        s ++ "hunter2" ++ t = "Unexpected token, password=hunter2 is not valid JSON") :=
  ⟨by decide, ⟨"Unexpected token, password=", " is not valid JSON", by decide⟩⟩
